import Mathlib

/-!
Shallow embedding of the thread-safe singly linked list from
src/src/linkedlist.c (with the public contract of src/include/linkedlist.h).

Modelling choices:
* A value buffer is a list of bytes (`Bytes`).  A `void *` argument that may
  be NULL is an `Option Bytes` (`none` = NULL).
* The `LinkedList` struct keeps the chain of node value buffers (`_head`,
  one entry per reachable node, in chain order), the element size
  (`_item_size`), the copy hook (`_copy : Option CopyFn`, `none` = NULL
  function pointer, as after `linkedlist_destroy`), and whether a dealloc
  hook is installed (`_dealloc`).  The pthread mutex field is not part of
  the observable state; in the C code every lock/unlock call on a live list
  succeeds (the failure branches are marked LCOV_EXCL as unreachable), so
  the lock is modelled as always succeeding, and the lock/unlock calls are
  recorded in an event trace instead.
* Each operation returns its C status code together with the new list state
  and the trace of externally visible actions it performed (lock, unlock,
  malloc and free of the node and its buffer, invocations of the copy and
  dealloc hooks), in program order.  The two `malloc` calls inside
  `linkedlist_add` may fail; their outcomes are oracle parameters
  (`nodeOk`, `valueOk`).
* A copy hook receives the destination contents, source contents and size,
  and returns the new destination contents together with a Bool modelling
  whether the returned pointer is non-NULL.  The C code discards the
  return value of every `list->_copy(...)` call, so only the first
  component is ever used.  `memcpy` is the default hook installed by
  `linkedlist_initialize` when the caller passes NULL.
* `malloc` returns an uninitialized buffer; its contents are modelled as
  zero bytes (`freshBytes`), which no theorem depends on except through
  the copy hook.
-/

namespace CLinkedList

/-- A value buffer: one byte per entry. -/
abbrev Bytes := List Nat

/-- Return codes of the C API: `LINKEDLIST_SUCCESS` (0) and the errno
values used by linkedlist.c. -/
inductive Status where
  | SUCCESS
  | EINVAL
  | ERANGE
  | ENOMEM
deriving DecidableEq, Repr

/-- Externally visible actions of one operation, in program order. -/
inductive Event where
  | lock
  | unlock
  | mallocNode (ok : Bool)
  | mallocValue (ok : Bool)
  | copyCall (dest src : Bytes) (n : Nat)
  | deallocCall (v : Bytes)
  | freeValue
  | freeNode
  | mutexDestroy
deriving DecidableEq, Repr

/-- `linkedlist_copyfunction_t`: takes the destination contents, the source
contents and the size, returns the new destination contents and whether the
returned pointer is non-NULL (the failure indication of a custom hook). -/
abbrev CopyFn := Bytes → Bytes → Nat → Bytes × Bool

/-- The libc `memcpy` as a copy hook: copies `n` bytes of the source over
the start of the destination and returns the (non-NULL) destination. -/
def memcpy : CopyFn := fun dest src n => (src.take n ++ dest.drop n, true)

/-- The `LinkedList` struct of linkedlist.h.  `_head` is the chain of node
value buffers reachable from the head pointer, in order.  The `_lock`
member is not modelled (see the file comment). -/
structure LinkedList where
  _head : List Bytes
  _item_size : Nat
  _copy : Option CopyFn
  _dealloc : Bool

/-- Applying the stored copy hook: the C code uses only the destination
buffer it fills, never the returned pointer.  Calling a NULL hook is
undefined behaviour in C and unreachable behind the initialized check;
it is modelled as leaving the destination unchanged. -/
def applyCopy (copy : Option CopyFn) (dest src : Bytes) (n : Nat) : Bytes :=
  match copy with
  | some f => (f dest src n).1
  | none => dest

/-- Contents of a freshly malloc-ed value buffer of `n` bytes. -/
def freshBytes (n : Nat) : Bytes := List.replicate n 0

/-- `static bool linkedlist_initialized(LinkedList *list)` (linkedlist.c
lines 89-92): non-NULL handle, non-zero item size, non-NULL copy hook. -/
def linkedlist_initialized (list : Option LinkedList) : Bool :=
  match list with
  | none => false
  | some l => l._item_size != 0 && l._copy.isSome

/-- `int linkedlist_initialize(...)` (lines 57-81): rejects a NULL list
pointer (modelled by `listGiven = false`) or a zero item size, otherwise
builds the empty list, defaulting the copy hook to `memcpy`. -/
def linkedlist_initialize (listGiven : Bool) (item_size : Nat)
    (copy : Option CopyFn) (dealloc : Bool) : Status × Option LinkedList :=
  if listGiven = false || item_size = 0 then (.EINVAL, none)
  else (.SUCCESS, some ⟨[], item_size, some (copy.getD memcpy), dealloc⟩)

/-- The tail-append loop of `linkedlist_add` (lines 157-171): if the head
is NULL the new node becomes the head, otherwise walk to the last node and
link the new node after it. -/
def appendTail (chain : List Bytes) (v : Bytes) : List Bytes :=
  match chain with
  | [] => [v]
  | x :: rest => x :: appendTail rest v

/-- The search loop shared by `linkedlist_get` (lines 305-313) and
`linkedlist_update` (lines 364-372): walk `index` steps from the head,
stopping early at NULL; the result is the node reached (NULL = `none`). -/
def findItem (chain : List Bytes) (index : Nat) : Option Bytes :=
  match chain, index with
  | [], _ => none
  | v :: _, 0 => some v
  | _ :: rest, k + 1 => findItem rest k

/-- The predecessor search of `linkedlist_remove` for `index >= 1`
(lines 224-247): from the current suffix of the chain, walk `k` more steps
(stopping early at NULL); then, if the reached node or its successor is
NULL, the index is out of range, otherwise unlink the successor.  Returns
the removed value and the new suffix. -/
def removePred (chain : List Bytes) (k : Nat) : Option (Bytes × List Bytes) :=
  match chain, k with
  | [], _ => none
  | [_], 0 => none
  | x :: y :: rest, 0 => some (y, x :: rest)
  | x :: rest, k + 1 =>
    match removePred rest k with
    | none => none
    | some (removed, newRest) => some (removed, x :: newRest)

/-- In-place overwrite of the value buffer of the node at `index`
(`linkedlist_update`, line 391): same chain with that one buffer replaced. -/
def updateAt (chain : List Bytes) (index : Nat) (newVal : Bytes) : List Bytes :=
  match chain, index with
  | [], _ => []
  | _ :: rest, 0 => newVal :: rest
  | x :: rest, k + 1 => x :: updateAt rest k newVal

/-- The counting loop of `linkedlist_length` (lines 429-435). -/
def countNodes (chain : List Bytes) : Nat :=
  match chain with
  | [] => 0
  | _ :: rest => countNodes rest + 1

/-- `int linkedlist_add(LinkedList *list, void *value)` (lines 110-175),
with the outcomes of the two mallocs as oracle parameters `nodeOk` and
`valueOk`.  The copy hook runs before the lock is taken; the failure
paths free whatever was allocated and leave the list untouched. -/
def linkedlist_add (list : Option LinkedList) (value : Option Bytes)
    (nodeOk valueOk : Bool) : Status × Option LinkedList × List Event :=
  match list with
  | none => (.EINVAL, none, [])
  | some l =>
    if linkedlist_initialized (some l) = false then (.EINVAL, some l, [])
    else match value with
    | none => (.EINVAL, some l, [])
    | some v =>
      if nodeOk = false then (.ENOMEM, some l, [.mallocNode false])
      else if valueOk = false then
        (.ENOMEM, some l, [.mallocNode true, .mallocValue false, .freeNode])
      else
        (.SUCCESS,
         some { l with
                _head := appendTail l._head
                  (applyCopy l._copy (freshBytes l._item_size) v l._item_size) },
         [.mallocNode true, .mallocValue true,
          .copyCall (freshBytes l._item_size) v l._item_size, .lock, .unlock])

/-- `int linkedlist_remove(LinkedList *list, unsigned int index)`
(lines 190-268): index 0 unlinks the head; otherwise the predecessor walk
`removePred` runs on the whole chain with `index - 1` steps.  The dealloc
hook and the frees happen after the lock is released. -/
def linkedlist_remove (list : Option LinkedList) (index : Nat) :
    Status × Option LinkedList × List Event :=
  match list with
  | none => (.EINVAL, none, [])
  | some l =>
    if linkedlist_initialized (some l) = false then (.EINVAL, some l, [])
    else match l._head with
    | [] => (.ERANGE, some l, [.lock, .unlock])
    | first :: rest =>
      if index = 0 then
        (.SUCCESS, some { l with _head := rest },
         [.lock, .unlock]
           ++ (if l._dealloc then [Event.deallocCall first] else [])
           ++ [.freeValue, .freeNode])
      else
        match removePred (first :: rest) (index - 1) with
        | none => (.ERANGE, some l, [.lock, .unlock])
        | some (removed, newChain) =>
          (.SUCCESS, some { l with _head := newChain },
           [.lock, .unlock]
             ++ (if l._dealloc then [Event.deallocCall removed] else [])
             ++ [.freeValue, .freeNode])

/-- `int linkedlist_get(LinkedList *list, unsigned int index, void *buffer)`
(lines 285-327): returns the status, the final contents of the caller
buffer (`none` = NULL buffer) and the event trace.  The C function never
writes to the list, so no list state is returned. -/
def linkedlist_get (list : Option LinkedList) (index : Nat)
    (buffer : Option Bytes) : Status × Option Bytes × List Event :=
  match list with
  | none => (.EINVAL, buffer, [])
  | some l =>
    if linkedlist_initialized (some l) = false then (.EINVAL, buffer, [])
    else match buffer with
    | none => (.EINVAL, none, [])
    | some b =>
      match findItem l._head index with
      | none => (.ERANGE, some b, [.lock, .unlock])
      | some stored =>
        (.SUCCESS, some (applyCopy l._copy b stored l._item_size),
         [.lock, .copyCall b stored l._item_size, .unlock])

/-- `int linkedlist_update(LinkedList *list, unsigned int index, void
*value)` (lines 344-397): on a found node, invoke the dealloc hook (if
set) on the old value and copy the new value over the same buffer, all
under the lock. -/
def linkedlist_update (list : Option LinkedList) (index : Nat)
    (value : Option Bytes) : Status × Option LinkedList × List Event :=
  match list with
  | none => (.EINVAL, none, [])
  | some l =>
    if linkedlist_initialized (some l) = false then (.EINVAL, some l, [])
    else match value with
    | none => (.EINVAL, some l, [])
    | some v =>
      match findItem l._head index with
      | none => (.ERANGE, some l, [.lock, .unlock])
      | some old =>
        (.SUCCESS,
         some { l with
                _head := updateAt l._head index
                  (applyCopy l._copy old v l._item_size) },
         [Event.lock]
           ++ (if l._dealloc then [Event.deallocCall old] else [])
           ++ [.copyCall old v l._item_size, .unlock])

/-- `int linkedlist_length(LinkedList *list, size_t *length_buffer)`
(lines 409-439): returns the status, the value written through the output
pointer (`none` when nothing was written) and the event trace.
`bufferGiven = false` models a NULL output pointer. -/
def linkedlist_length (list : Option LinkedList) (bufferGiven : Bool) :
    Status × Option Nat × List Event :=
  match list with
  | none => (.EINVAL, none, [])
  | some l =>
    if linkedlist_initialized (some l) = false then (.EINVAL, none, [])
    else if bufferGiven = false then (.EINVAL, none, [])
    else (.SUCCESS, some (countNodes l._head), [.lock, .unlock])

/-- The teardown loop of `linkedlist_destroy` (lines 450-465) followed by
the mutex destruction: per node, dealloc hook (if set), free of the value
buffer, free of the node. -/
def destroyEvents (dealloc : Bool) (chain : List Bytes) : List Event :=
  match chain with
  | [] => [Event.mutexDestroy]
  | v :: rest =>
    ((if dealloc then [Event.deallocCall v] else [])
      ++ [Event.freeValue, Event.freeNode]) ++ destroyEvents dealloc rest

/-- `void linkedlist_destroy(LinkedList *list)` (lines 446-475): frees all
nodes, destroys the lock, and invalidates the list by clearing the head
and both hooks (the item size is left as is). -/
def linkedlist_destroy (list : Option LinkedList) :
    Option LinkedList × List Event :=
  match list with
  | none => (none, [])
  | some l =>
    (some { l with _head := [], _copy := none, _dealloc := false },
     destroyEvents l._dealloc l._head)

/-- One call of the public API in a sequence (for the length-counting
property): the argument values and, for add, the malloc oracle bits. -/
inductive Op where
  | add (value : Option Bytes) (nodeOk valueOk : Bool)
  | remove (index : Nat)
  | update (index : Nat) (value : Option Bytes)
  | get (index : Nat) (buffer : Option Bytes)

/-- Running one call against a list handle: the returned status and the
list state afterwards (`linkedlist_get` never writes to the list). -/
def runOp (list : Option LinkedList) (op : Op) : Status × Option LinkedList :=
  match op with
  | .add v nOk vOk =>
    ((linkedlist_add list v nOk vOk).1, (linkedlist_add list v nOk vOk).2.1)
  | .remove i => ((linkedlist_remove list i).1, (linkedlist_remove list i).2.1)
  | .update i v =>
    ((linkedlist_update list i v).1, (linkedlist_update list i v).2.1)
  | .get i b => ((linkedlist_get list i b).1, list)

/-- Running a sequence of calls: final list state, number of calls of
`linkedlist_add` that returned success, number of calls of
`linkedlist_remove` that returned success. -/
def runOps (list : Option LinkedList) (ops : List Op) :
    Option LinkedList × Nat × Nat :=
  match ops with
  | [] => (list, 0, 0)
  | op :: rest =>
    let step := runOp list op
    let tail := runOps step.2 rest
    match op with
    | .add _ _ _ =>
      (tail.1, (if step.1 = .SUCCESS then tail.2.1 + 1 else tail.2.1), tail.2.2)
    | .remove _ =>
      (tail.1, tail.2.1, (if step.1 = .SUCCESS then tail.2.2 + 1 else tail.2.2))
    | _ => tail

/-- A copy hook with the same effect on the destination buffer but whose
returned pointer is NULL (the failure indication of the contract in
linkedlist.h). -/
def discardRet (f : CopyFn) : CopyFn := fun dest src n => ((f dest src n).1, false)

/-- Number of successful allocations recorded in a trace. -/
def succMallocs (ev : List Event) : Nat :=
  ev.countP (fun e =>
    match e with
    | .mallocNode ok => ok
    | .mallocValue ok => ok
    | _ => false)

/-- Number of frees of a node or of a value buffer recorded in a trace. -/
def freeCount (ev : List Event) : Nat :=
  ev.countP (fun e =>
    match e with
    | .freeValue => true
    | .freeNode => true
    | _ => false)

/-- Whether an event is an invocation of the dealloc hook. -/
def isDeallocEvent (e : Event) : Bool :=
  match e with
  | .deallocCall _ => true
  | _ => false

/-- Whether an event is an invocation of the copy hook. -/
def isCopyEvent (e : Event) : Bool :=
  match e with
  | .copyCall _ _ _ => true
  | _ => false

/-- Whether an event frees a node or a value buffer. -/
def isFreeEvent (e : Event) : Bool :=
  match e with
  | .freeValue => true
  | .freeNode => true
  | _ => false

/-! ### Facts about the loop helpers -/

theorem appendTail_eq (chain : List Bytes) (v : Bytes) :
    appendTail chain v = chain ++ [v] := by
  induction chain with
  | nil => rfl
  | cons x rest ih => simp [appendTail, ih]

theorem countNodes_eq (chain : List Bytes) : countNodes chain = chain.length := by
  induction chain with
  | nil => rfl
  | cons x rest ih => simp [countNodes, ih]

theorem findItem_eq (chain : List Bytes) (index : Nat) :
    findItem chain index = chain[index]? := by
  induction chain generalizing index with
  | nil => simp [findItem]
  | cons x rest ih =>
    cases index with
    | zero => simp [findItem]
    | succ k => simp [findItem, ih]

theorem updateAt_eq (chain : List Bytes) (index : Nat) (v : Bytes) :
    updateAt chain index v = chain.set index v := by
  induction chain generalizing index with
  | nil => simp [updateAt]
  | cons x rest ih =>
    cases index with
    | zero => simp [updateAt]
    | succ k => simp [updateAt, ih]

theorem removePred_spec (k : Nat) (chain : List Bytes) :
    removePred chain k =
      (chain[k + 1]?).map
        (fun rem => (rem, chain.take (k + 1) ++ chain.drop (k + 2))) := by
  induction k generalizing chain with
  | zero =>
    match chain with
    | [] => rfl
    | [x] => rfl
    | x :: y :: rest => simp [removePred]
  | succ k ih =>
    match chain with
    | [] => rfl
    | x :: rest =>
      simp only [removePred, ih rest, List.getElem?_cons_succ]
      cases hr : rest[k + 1]? <;>
        simp [List.take_succ_cons, List.drop_succ_cons]

/-- Closed form of `linkedlist_remove` on an initialized list: the node at
`index` is unlinked exactly when that index is within the chain. -/
theorem remove_eq (l : LinkedList) (i : Nat)
    (hinit : linkedlist_initialized (some l) = true) :
    linkedlist_remove (some l) i =
      match l._head[i]? with
      | none => (.ERANGE, some l, [.lock, .unlock])
      | some rem =>
        (.SUCCESS,
         some { l with _head := l._head.take i ++ l._head.drop (i + 1) },
         [.lock, .unlock]
           ++ (if l._dealloc then [Event.deallocCall rem] else [])
           ++ [.freeValue, .freeNode]) := by
  cases hh : l._head with
  | nil => simp [linkedlist_remove, hinit, hh]
  | cons first rest =>
    by_cases hi : i = 0
    · subst hi
      simp [linkedlist_remove, hinit, hh]
    · obtain ⟨j, rfl⟩ : ∃ j, i = j + 1 :=
        ⟨i - 1, (Nat.succ_pred_eq_of_pos (Nat.pos_of_ne_zero hi)).symm⟩
      simp only [linkedlist_remove, hinit, Bool.true_eq_false, if_false, hh,
        Nat.add_sub_cancel, removePred_spec, List.getElem?_cons_succ]
      cases hr : rest[j]? <;>
        simp [List.take_succ_cons, List.drop_succ_cons]

/-- Outcome of one `linkedlist_add` call on a non-NULL handle: either it
returns success and exactly one value is appended at the tail, or it fails
and the state is unchanged. -/
theorem add_cases (l : LinkedList) (value : Option Bytes) (nOk vOk : Bool) :
    ((linkedlist_add (some l) value nOk vOk).1 = .SUCCESS ∧
      ∃ x, (linkedlist_add (some l) value nOk vOk).2.1 =
        some { l with _head := l._head ++ [x] }) ∨
    ((linkedlist_add (some l) value nOk vOk).1 ≠ .SUCCESS ∧
      (linkedlist_add (some l) value nOk vOk).2.1 = some l) := by
  by_cases hinit : linkedlist_initialized (some l) = true
  · cases value with
    | none => right; simp [linkedlist_add, hinit]
    | some v =>
      cases nOk with
      | false => right; simp [linkedlist_add, hinit]
      | true =>
        cases vOk with
        | false => right; simp [linkedlist_add, hinit]
        | true => left; simp [linkedlist_add, hinit, appendTail_eq]
  · have hinit2 : linkedlist_initialized (some l) = false :=
      Bool.eq_false_iff.mpr hinit
    right
    cases value <;> simp [linkedlist_add, hinit2]

/-- Outcome of one `linkedlist_remove` call on a non-NULL handle: either it
returns success and the chain shrinks by one node, or it fails and the
state is unchanged. -/
theorem remove_cases (l : LinkedList) (i : Nat) :
    ((linkedlist_remove (some l) i).1 = .SUCCESS ∧
      ∃ h2, (linkedlist_remove (some l) i).2.1 = some { l with _head := h2 } ∧
        h2.length + 1 = l._head.length) ∨
    ((linkedlist_remove (some l) i).1 ≠ .SUCCESS ∧
      (linkedlist_remove (some l) i).2.1 = some l) := by
  by_cases hinit : linkedlist_initialized (some l) = true
  · rw [remove_eq l i hinit]
    cases hx : l._head[i]? with
    | none => right; simp
    | some rem =>
      left
      have hlt : i < l._head.length := by
        by_contra hle
        rw [List.getElem?_eq_none (Nat.le_of_not_lt hle)] at hx
        exact Option.noConfusion hx
      refine ⟨rfl, l._head.take i ++ l._head.drop (i + 1), rfl, ?_⟩
      simp only [List.length_append, List.length_take, List.length_drop]
      omega
  · have hinit2 : linkedlist_initialized (some l) = false :=
      Bool.eq_false_iff.mpr hinit
    right; simp [linkedlist_remove, hinit2]

/-- One `linkedlist_update` call on a non-NULL handle never changes the
number of nodes, and only ever touches the head chain. -/
theorem update_cases (l : LinkedList) (i : Nat) (value : Option Bytes) :
    ∃ h2, (linkedlist_update (some l) i value).2.1 =
        some { l with _head := h2 } ∧ h2.length = l._head.length := by
  by_cases hinit : linkedlist_initialized (some l) = true
  · cases value with
    | none => exact ⟨l._head, by simp [linkedlist_update, hinit], rfl⟩
    | some v =>
      cases hx : findItem l._head i with
      | none =>
        exact ⟨l._head, by simp [linkedlist_update, hinit, hx], rfl⟩
      | some old =>
        refine ⟨updateAt l._head i (applyCopy l._copy old v l._item_size),
          by simp [linkedlist_update, hinit, hx], ?_⟩
        simp [updateAt_eq]
  · have hinit2 : linkedlist_initialized (some l) = false :=
      Bool.eq_false_iff.mpr hinit
    cases value <;>
      exact ⟨l._head, by simp [linkedlist_update, hinit2], rfl⟩

/-- Running any sequence of calls from a non-NULL handle keeps the handle
non-NULL, never touches the item size or the two hooks, and changes the
node count by exactly (successful adds) − (successful removes). -/
theorem runOps_fields (ops : List Op) (l : LinkedList) :
    ∃ l2 a r, runOps (some l) ops = (some l2, a, r) ∧
      l2._head.length + r = l._head.length + a ∧
      l2._item_size = l._item_size ∧ l2._copy = l._copy ∧
      l2._dealloc = l._dealloc := by
  induction ops generalizing l with
  | nil => exact ⟨l, 0, 0, rfl, rfl, rfl, rfl, rfl⟩
  | cons op rest ih =>
    cases op with
    | add v nOk vOk =>
      rcases add_cases l v nOk vOk with ⟨hs, x, hst⟩ | ⟨hs, hst⟩
      · obtain ⟨l2, a, r, hrun, hlen, h1, h2, h3⟩ :=
          ih { l with _head := l._head ++ [x] }
        refine ⟨l2, a + 1, r, ?_, ?_, h1, h2, h3⟩
        · simp only [runOps, runOp, hst, hrun, hs, if_pos]
        · simp only [List.length_append, List.length_singleton] at hlen
          omega
      · obtain ⟨l2, a, r, hrun, hlen, h1, h2, h3⟩ := ih l
        refine ⟨l2, a, r, ?_, hlen, h1, h2, h3⟩
        simp only [runOps, runOp, hst, hrun, if_neg hs]
    | remove i =>
      rcases remove_cases l i with ⟨hs, h2c, hst, hlen1⟩ | ⟨hs, hst⟩
      · obtain ⟨l2, a, r, hrun, hlen, h1, h2, h3⟩ := ih { l with _head := h2c }
        refine ⟨l2, a, r + 1, ?_, ?_, h1, h2, h3⟩
        · simp only [runOps, runOp, hst, hrun, hs, if_pos]
        · simp only at hlen
          omega
      · obtain ⟨l2, a, r, hrun, hlen, h1, h2, h3⟩ := ih l
        refine ⟨l2, a, r, ?_, hlen, h1, h2, h3⟩
        simp only [runOps, runOp, hst, hrun, if_neg hs]
    | update i v =>
      obtain ⟨h2c, hst, hlen1⟩ := update_cases l i v
      obtain ⟨l2, a, r, hrun, hlen, h1, h2, h3⟩ := ih { l with _head := h2c }
      refine ⟨l2, a, r, ?_, by simp only at hlen; omega, h1, h2, h3⟩
      simp only [runOps, runOp, hst, hrun]
    | get i b =>
      obtain ⟨l2, a, r, hrun, hlen, h1, h2, h3⟩ := ih l
      exact ⟨l2, a, r, by simp only [runOps, runOp, hrun], hlen, h1, h2, h3⟩

/-- Closed form of `linkedlist_get` on an initialized list with a non-NULL
output buffer. -/
theorem get_eq (l : LinkedList) (i : Nat) (b : Bytes)
    (hinit : linkedlist_initialized (some l) = true) :
    linkedlist_get (some l) i (some b) =
      match l._head[i]? with
      | none => (.ERANGE, some b, [.lock, .unlock])
      | some stored =>
        (.SUCCESS, some (applyCopy l._copy b stored l._item_size),
         [.lock, .copyCall b stored l._item_size, .unlock]) := by
  simp [linkedlist_get, hinit, findItem_eq]

/-- Closed form of `linkedlist_update` on an initialized list with a
non-NULL value. -/
theorem update_eq (l : LinkedList) (i : Nat) (v : Bytes)
    (hinit : linkedlist_initialized (some l) = true) :
    linkedlist_update (some l) i (some v) =
      match l._head[i]? with
      | none => (.ERANGE, some l, [.lock, .unlock])
      | some old =>
        (.SUCCESS,
         some { l with
                _head := l._head.set i (applyCopy l._copy old v l._item_size) },
         [Event.lock]
           ++ (if l._dealloc then [Event.deallocCall old] else [])
           ++ [.copyCall old v l._item_size, .unlock]) := by
  cases hx : l._head[i]? <;>
    simp [linkedlist_update, hinit, findItem_eq, updateAt_eq, hx]

/-- The byte copy fills the destination with the source when both have the
advertised size. -/
theorem applyCopy_memcpy (b s : Bytes) (n : Nat) (hs : s.length = n)
    (hb : b.length = n) : applyCopy (some memcpy) b s n = s := by
  subst hs
  simp only [applyCopy, memcpy, List.take_length]
  rw [← hb, List.drop_length, List.append_nil]

/-- C1: on an initialized list, a successful `linkedlist_add` of a non-null
value appends the copied value at the tail: the old elements keep their
order and indices, the new element sits at index old-length, and an
immediate `linkedlist_get` at that index returns a value equal to `v`
(byte-for-byte with the default `memcpy` copy hook). -/
theorem c1_add_appends_tail (l : LinkedList) (v b : Bytes)
    (hinit : linkedlist_initialized (some l) = true) :
    ∃ l2,
      (linkedlist_add (some l) (some v) true true).1 = .SUCCESS ∧
      (linkedlist_add (some l) (some v) true true).2.1 = some l2 ∧
      l2._head = l._head ++
        [applyCopy l._copy (freshBytes l._item_size) v l._item_size] ∧
      l2._head.length = l._head.length + 1 ∧
      (∀ i, i < l._head.length → l2._head[i]? = l._head[i]?) ∧
      (l._copy = some memcpy → v.length = l._item_size →
        b.length = l._item_size →
        linkedlist_get (some l2) l._head.length (some b) =
          (.SUCCESS, some v, [.lock, .copyCall b v l._item_size, .unlock])) := by
  refine ⟨{ l with _head := l._head ++
      [applyCopy l._copy (freshBytes l._item_size) v l._item_size] },
    by simp [linkedlist_add, hinit],
    by simp [linkedlist_add, hinit, appendTail_eq], rfl, by simp, ?_, ?_⟩
  · intro i hi
    exact List.getElem?_append_left hi
  · intro hcp hv hb
    have hx : applyCopy l._copy (freshBytes l._item_size) v l._item_size = v := by
      rw [hcp]
      exact applyCopy_memcpy _ _ _ hv (by simp [freshBytes])
    rw [hx]
    have hinit2 : linkedlist_initialized
        (some { l with _head := l._head ++ [v] }) = true := by
      simpa [linkedlist_initialized] using hinit
    rw [get_eq _ _ _ hinit2]
    simp only [List.getElem?_concat_length]
    rw [hcp, applyCopy_memcpy _ _ _ hv hb]

/-- Witness for C1 at a concrete input: a one-byte list holding `[3]`,
adding `[7]` with the default byte copy. -/
theorem c1_add_appends_tail_witness :
    linkedlist_initialized (some ⟨[[3]], 1, some memcpy, false⟩) = true ∧
    ∃ l2,
      (linkedlist_add (some ⟨[[3]], 1, some memcpy, false⟩) (some [7]) true true).1 =
        .SUCCESS ∧
      (linkedlist_add (some ⟨[[3]], 1, some memcpy, false⟩) (some [7]) true true).2.1 =
        some l2 ∧
      l2._head = [[3]] ++ [applyCopy (some memcpy) (freshBytes 1) [7] 1] ∧
      l2._head.length = [[3]].length + 1 ∧
      (∀ i, i < [[3]].length → l2._head[i]? = [[3]][i]?) ∧
      (some memcpy = some memcpy → [7].length = 1 → [0].length = 1 →
        linkedlist_get (some l2) [[3]].length (some [0]) =
          (.SUCCESS, some [7], [.lock, .copyCall [0] [7] 1, .unlock])) :=
  ⟨rfl, c1_add_appends_tail ⟨[[3]], 1, some memcpy, false⟩ [7] [0] rfl⟩

/-- C2: on an initialized list of current length n, `linkedlist_get`,
`linkedlist_update` and `linkedlist_remove` return ERANGE exactly for the
indices `i ≥ n` (so never EINVAL on the index alone), and never ERANGE for
`i < n`. -/
theorem c2_index_range (l : LinkedList) (i : Nat) (v b : Bytes)
    (hinit : linkedlist_initialized (some l) = true) :
    (l._head.length ≤ i →
      (linkedlist_get (some l) i (some b)).1 = .ERANGE ∧
      (linkedlist_update (some l) i (some v)).1 = .ERANGE ∧
      (linkedlist_remove (some l) i).1 = .ERANGE) ∧
    (i < l._head.length →
      (linkedlist_get (some l) i (some b)).1 ≠ .ERANGE ∧
      (linkedlist_update (some l) i (some v)).1 ≠ .ERANGE ∧
      (linkedlist_remove (some l) i).1 ≠ .ERANGE) := by
  constructor
  · intro hge
    have hx : l._head[i]? = none := List.getElem?_eq_none hge
    refine ⟨?_, ?_, ?_⟩ <;>
      simp [get_eq _ _ b hinit, update_eq _ _ v hinit, remove_eq _ _ hinit, hx]
  · intro hlt
    have hx : l._head[i]? = some l._head[i] := List.getElem?_eq_getElem hlt
    refine ⟨?_, ?_, ?_⟩ <;>
      simp [get_eq _ _ b hinit, update_eq _ _ v hinit, remove_eq _ _ hinit, hx]

/-- Witness for C2 at a concrete input: a one-element list, once with the
out-of-range index 1 (= the length) and once with the valid index 0. -/
theorem c2_index_range_witness :
    (linkedlist_initialized (some ⟨[[5]], 1, some memcpy, false⟩) = true ∧
      ((1 ≤ 1 →
        (linkedlist_get (some ⟨[[5]], 1, some memcpy, false⟩) 1 (some [0])).1 =
          .ERANGE ∧
        (linkedlist_update (some ⟨[[5]], 1, some memcpy, false⟩) 1 (some [9])).1 =
          .ERANGE ∧
        (linkedlist_remove (some ⟨[[5]], 1, some memcpy, false⟩) 1).1 =
          .ERANGE) ∧
      (1 < 1 →
        (linkedlist_get (some ⟨[[5]], 1, some memcpy, false⟩) 1 (some [0])).1 ≠
          .ERANGE ∧
        (linkedlist_update (some ⟨[[5]], 1, some memcpy, false⟩) 1 (some [9])).1 ≠
          .ERANGE ∧
        (linkedlist_remove (some ⟨[[5]], 1, some memcpy, false⟩) 1).1 ≠
          .ERANGE))) ∧
    ((1 ≤ 0 →
        (linkedlist_get (some ⟨[[5]], 1, some memcpy, false⟩) 0 (some [0])).1 =
          .ERANGE ∧
        (linkedlist_update (some ⟨[[5]], 1, some memcpy, false⟩) 0 (some [9])).1 =
          .ERANGE ∧
        (linkedlist_remove (some ⟨[[5]], 1, some memcpy, false⟩) 0).1 =
          .ERANGE) ∧
      (0 < 1 →
        (linkedlist_get (some ⟨[[5]], 1, some memcpy, false⟩) 0 (some [0])).1 ≠
          .ERANGE ∧
        (linkedlist_update (some ⟨[[5]], 1, some memcpy, false⟩) 0 (some [9])).1 ≠
          .ERANGE ∧
        (linkedlist_remove (some ⟨[[5]], 1, some memcpy, false⟩) 0).1 ≠
          .ERANGE)) :=
  ⟨⟨rfl, c2_index_range ⟨[[5]], 1, some memcpy, false⟩ 1 [9] [0] rfl⟩,
   c2_index_range ⟨[[5]], 1, some memcpy, false⟩ 0 [9] [0] rfl⟩

/-- C3: a successful `linkedlist_remove` at a valid index `i` shifts every
following element down by one (index `j ≥ i` now holds what was at
`j + 1`, indices below `i` are untouched): a following `linkedlist_get i`
returns the value previously stored at `i + 1`, and after removing the
last valid index the same `linkedlist_get i` returns ERANGE. -/
theorem c3_remove_shifts_down (l : LinkedList) (i : Nat) (b : Bytes)
    (hinit : linkedlist_initialized (some l) = true)
    (hi : i < l._head.length) :
    ∃ l2,
      (linkedlist_remove (some l) i).1 = .SUCCESS ∧
      (linkedlist_remove (some l) i).2.1 = some l2 ∧
      l2._head.length + 1 = l._head.length ∧
      (∀ j, i ≤ j → l2._head[j]? = l._head[j + 1]?) ∧
      (∀ j, j < i → l2._head[j]? = l._head[j]?) ∧
      (∀ w, l._head[i + 1]? = some w → w.length = l._item_size →
        b.length = l._item_size → l._copy = some memcpy →
        linkedlist_get (some l2) i (some b) =
          (.SUCCESS, some w, [.lock, .copyCall b w l._item_size, .unlock])) ∧
      (i + 1 = l._head.length →
        (linkedlist_get (some l2) i (some b)).1 = .ERANGE) := by
  have hx : l._head[i]? = some l._head[i] := List.getElem?_eq_getElem hi
  have hti : (l._head.take i).length = i := by
    simp only [List.length_take]
    omega
  have hshift : ∀ j, i ≤ j →
      (l._head.take i ++ l._head.drop (i + 1))[j]? = l._head[j + 1]? := by
    intro j hj
    rw [List.getElem?_append_right (by rw [hti]; exact hj)]
    rw [List.getElem?_drop, hti]
    congr 1
    omega
  have hinit2 : linkedlist_initialized
      (some { l with _head := l._head.take i ++ l._head.drop (i + 1) }) =
        true := by
    simpa [linkedlist_initialized] using hinit
  refine ⟨{ l with _head := l._head.take i ++ l._head.drop (i + 1) },
    by simp [remove_eq _ _ hinit, hx], by simp [remove_eq _ _ hinit, hx],
    ?_, hshift, ?_, ?_, ?_⟩
  · simp only [List.length_append, List.length_take, List.length_drop]
    omega
  · intro j hj
    have h1 : j < (l._head.take i).length := by
      rw [hti]; exact hj
    rw [List.getElem?_append_left h1, List.getElem?_take_of_lt hj]
  · intro w hw hwlen hblen hcp
    rw [get_eq _ _ _ hinit2]
    have hs : (l._head.take i ++ l._head.drop (i + 1))[i]? = some w :=
      (hshift i le_rfl).trans hw
    simp only [hs]
    rw [hcp, applyCopy_memcpy _ _ _ hwlen hblen]
  · intro hlast
    rw [get_eq _ _ _ hinit2]
    have hs : (l._head.take i ++ l._head.drop (i + 1))[i]? = none :=
      (hshift i le_rfl).trans (List.getElem?_eq_none (by omega))
    simp [hs]

/-- Witness for C3 at concrete inputs: removing index 1 of a three-element
list (the following element shifts down), and removing the last index 1 of
a two-element list (a get at index 1 then reports ERANGE). -/
theorem c3_remove_shifts_down_witness :
    (linkedlist_initialized (some ⟨[[1], [2], [3]], 1, some memcpy, false⟩) =
        true ∧ 1 < 3 ∧
      ∃ l2,
        (linkedlist_remove (some ⟨[[1], [2], [3]], 1, some memcpy, false⟩) 1).1 =
          .SUCCESS ∧
        (linkedlist_remove (some ⟨[[1], [2], [3]], 1, some memcpy, false⟩) 1).2.1 =
          some l2 ∧
        l2._head.length + 1 = 3 ∧
        (∀ j, 1 ≤ j → l2._head[j]? = [[1], [2], [3]][j + 1]?) ∧
        (∀ j, j < 1 → l2._head[j]? = [[1], [2], [3]][j]?) ∧
        (∀ w, [[1], [2], [3]][2]? = some w → w.length = 1 →
          [0].length = 1 → some memcpy = some memcpy →
          linkedlist_get (some l2) 1 (some [0]) =
            (.SUCCESS, some w, [.lock, .copyCall [0] w 1, .unlock])) ∧
        (2 = 3 → (linkedlist_get (some l2) 1 (some [0])).1 = .ERANGE)) ∧
    (∃ l3,
      (linkedlist_remove (some ⟨[[1], [2]], 1, some memcpy, false⟩) 1).1 =
        .SUCCESS ∧
      (linkedlist_remove (some ⟨[[1], [2]], 1, some memcpy, false⟩) 1).2.1 =
        some l3 ∧
      l3._head.length + 1 = 2 ∧
      (∀ j, 1 ≤ j → l3._head[j]? = [[1], [2]][j + 1]?) ∧
      (∀ j, j < 1 → l3._head[j]? = [[1], [2]][j]?) ∧
      (∀ w, [[1], [2]][2]? = some w → w.length = 1 →
        [0].length = 1 → some memcpy = some memcpy →
        linkedlist_get (some l3) 1 (some [0]) =
          (.SUCCESS, some w, [.lock, .copyCall [0] w 1, .unlock])) ∧
      (2 = 2 → (linkedlist_get (some l3) 1 (some [0])).1 = .ERANGE)) :=
  ⟨⟨rfl, by decide,
    c3_remove_shifts_down ⟨[[1], [2], [3]], 1, some memcpy, false⟩ 1 [0] rfl
      (by decide)⟩,
   c3_remove_shifts_down ⟨[[1], [2]], 1, some memcpy, false⟩ 1 [0] rfl
     (by decide)⟩

/-- C5: on a valid index, `linkedlist_update` returns success, invokes the
dealloc hook (exactly when one is set) on the old value, copies the new
value over the same node buffer, and changes nothing else: every other
element, the length, the size and both hooks are unchanged, and a
following `linkedlist_get i` returns the new value (byte-for-byte with the
default `memcpy` hook). -/
theorem c5_update_in_place (l : LinkedList) (i : Nat) (v2 b old : Bytes)
    (hinit : linkedlist_initialized (some l) = true)
    (hold : l._head[i]? = some old) :
    ∃ l2,
      (linkedlist_update (some l) i (some v2)).1 = .SUCCESS ∧
      (linkedlist_update (some l) i (some v2)).2.1 = some l2 ∧
      (linkedlist_update (some l) i (some v2)).2.2 =
        [Event.lock]
          ++ (if l._dealloc then [Event.deallocCall old] else [])
          ++ [.copyCall old v2 l._item_size, .unlock] ∧
      l2._item_size = l._item_size ∧ l2._copy = l._copy ∧
      l2._dealloc = l._dealloc ∧
      l2._head.length = l._head.length ∧
      l2._head[i]? = some (applyCopy l._copy old v2 l._item_size) ∧
      (∀ j, j ≠ i → l2._head[j]? = l._head[j]?) ∧
      (l._copy = some memcpy → v2.length = l._item_size →
        old.length = l._item_size → b.length = l._item_size →
        linkedlist_get (some l2) i (some b) =
          (.SUCCESS, some v2, [.lock, .copyCall b v2 l._item_size, .unlock])) := by
  have hi : i < l._head.length := by
    by_contra hle
    rw [List.getElem?_eq_none (Nat.le_of_not_lt hle)] at hold
    exact Option.noConfusion hold
  have hinit2 : linkedlist_initialized
      (some { l with
        _head := l._head.set i (applyCopy l._copy old v2 l._item_size) }) =
        true := by
    simpa [linkedlist_initialized] using hinit
  refine ⟨{ l with
      _head := l._head.set i (applyCopy l._copy old v2 l._item_size) },
    by simp [update_eq _ _ _ hinit, hold],
    by simp [update_eq _ _ _ hinit, hold],
    by simp [update_eq _ _ _ hinit, hold],
    rfl, rfl, rfl, by simp, ?_, ?_, ?_⟩
  · exact List.getElem?_set_self (by simpa using hi)
  · intro j hj
    exact List.getElem?_set_ne (Ne.symm hj)
  · intro hcp hv2 holdlen hb
    have hnew : applyCopy l._copy old v2 l._item_size = v2 := by
      rw [hcp]
      exact applyCopy_memcpy _ _ _ hv2 holdlen
    rw [get_eq _ _ _ hinit2]
    have hs : (l._head.set i (applyCopy l._copy old v2 l._item_size))[i]? =
        some v2 := by
      rw [List.getElem?_set_self (by simpa using hi), hnew]
    simp only [hs]
    rw [hcp, applyCopy_memcpy _ _ _ hv2 hb]

/-- Witness for C5 at a concrete input: updating index 0 of a two-element
one-byte list from `[1]` to `[9]` with the default byte copy. -/
theorem c5_update_in_place_witness :
    linkedlist_initialized (some ⟨[[1], [2]], 1, some memcpy, false⟩) = true ∧
    [[1], [2]][0]? = some [1] ∧
    ∃ l2,
      (linkedlist_update (some ⟨[[1], [2]], 1, some memcpy, false⟩) 0
        (some [9])).1 = .SUCCESS ∧
      (linkedlist_update (some ⟨[[1], [2]], 1, some memcpy, false⟩) 0
        (some [9])).2.1 = some l2 ∧
      (linkedlist_update (some ⟨[[1], [2]], 1, some memcpy, false⟩) 0
        (some [9])).2.2 =
        [Event.lock] ++ (if false then [Event.deallocCall [1]] else [])
          ++ [.copyCall [1] [9] 1, .unlock] ∧
      l2._item_size = 1 ∧ l2._copy = some memcpy ∧ l2._dealloc = false ∧
      l2._head.length = 2 ∧
      l2._head[0]? = some (applyCopy (some memcpy) [1] [9] 1) ∧
      (∀ j, j ≠ 0 → l2._head[j]? = [[1], [2]][j]?) ∧
      (some memcpy = some memcpy → [9].length = 1 → [1].length = 1 →
        [0].length = 1 →
        linkedlist_get (some l2) 0 (some [0]) =
          (.SUCCESS, some [9], [.lock, .copyCall [0] [9] 1, .unlock])) :=
  ⟨rfl, rfl,
   c5_update_in_place ⟨[[1], [2]], 1, some memcpy, false⟩ 0 [9] [0] [1] rfl rfl⟩

/-- C4: after any sequence of add/remove/update/get calls on an initially
empty initialized list, `linkedlist_length` returns success and writes
exactly (successful adds) − (successful removes), which is the count of
nodes reachable from the head. -/
theorem c4_length_is_adds_minus_removes (ops : List Op) (l : LinkedList)
    (hinit : linkedlist_initialized (some l) = true)
    (hempty : l._head = []) :
    ∃ l2 a r, runOps (some l) ops = (some l2, a, r) ∧
      r ≤ a ∧
      countNodes l2._head = a - r ∧
      linkedlist_length (some l2) true =
        (.SUCCESS, some (a - r), [.lock, .unlock]) := by
  obtain ⟨l2, a, r, hrun, hlen, h1, h2, h3⟩ := runOps_fields ops l
  rw [hempty] at hlen
  simp only [List.length_nil, Nat.zero_add] at hlen
  have hinit2 : linkedlist_initialized (some l2) = true := by
    simp only [linkedlist_initialized] at hinit ⊢
    rw [h1, h2]
    exact hinit
  have hl : l2._head.length = a - r := by omega
  refine ⟨l2, a, r, hrun, by omega, ?_, ?_⟩
  · rw [countNodes_eq, hl]
  · simp [linkedlist_length, hinit2, countNodes_eq, hl]

/-- Witness for C4 at a concrete input: two adds, one remove, one update
and one get on an initially empty one-byte list. -/
theorem c4_length_is_adds_minus_removes_witness :
    linkedlist_initialized (some ⟨[], 1, some memcpy, false⟩) = true ∧
    ∃ l2 a r,
      runOps (some ⟨[], 1, some memcpy, false⟩)
        [.add (some [4]) true true, .add (some [6]) true true, .remove 0,
         .update 0 (some [8]), .get 0 (some [0])] = (some l2, a, r) ∧
      r ≤ a ∧
      countNodes l2._head = a - r ∧
      linkedlist_length (some l2) true =
        (.SUCCESS, some (a - r), [.lock, .unlock]) :=
  ⟨rfl,
   c4_length_is_adds_minus_removes
     [.add (some [4]) true true, .add (some [6]) true true, .remove 0,
      .update 0 (some [8]), .get 0 (some [0])]
     ⟨[], 1, some memcpy, false⟩ rfl rfl⟩

/-- C6: a failing call leaves the list exactly as it was: a failing
`linkedlist_add` frees every buffer it allocated and never runs the copy
or dealloc hook, and a failing `linkedlist_update` or `linkedlist_remove`
performs no dealloc, no copy, no free and no unlinking. -/
theorem c6_failure_leaves_state (list : Option LinkedList)
    (value : Option Bytes) (nOk vOk : Bool) (i : Nat) :
    ((linkedlist_add list value nOk vOk).1 ≠ .SUCCESS →
      (linkedlist_add list value nOk vOk).2.1 = list ∧
      succMallocs (linkedlist_add list value nOk vOk).2.2 =
        freeCount (linkedlist_add list value nOk vOk).2.2 ∧
      ∀ e ∈ (linkedlist_add list value nOk vOk).2.2,
        isDeallocEvent e = false ∧ isCopyEvent e = false) ∧
    ((linkedlist_update list i value).1 ≠ .SUCCESS →
      (linkedlist_update list i value).2.1 = list ∧
      ∀ e ∈ (linkedlist_update list i value).2.2,
        isDeallocEvent e = false ∧ isCopyEvent e = false) ∧
    ((linkedlist_remove list i).1 ≠ .SUCCESS →
      (linkedlist_remove list i).2.1 = list ∧
      ∀ e ∈ (linkedlist_remove list i).2.2,
        isDeallocEvent e = false ∧ isFreeEvent e = false) := by
  refine ⟨?_, ?_, ?_⟩
  · intro hfail
    cases list with
    | none => exact ⟨rfl, rfl, by simp [linkedlist_add]⟩
    | some l =>
      by_cases hinit : linkedlist_initialized (some l) = true
      · cases value with
        | none =>
          refine ⟨?_, ?_, ?_⟩ <;>
            simp [linkedlist_add, hinit, succMallocs, freeCount]
        | some v =>
          cases nOk with
          | false =>
            refine ⟨?_, ?_, ?_⟩ <;>
              simp [linkedlist_add, hinit, succMallocs, freeCount,
                isDeallocEvent, isCopyEvent]
          | true =>
            cases vOk with
            | false =>
              refine ⟨?_, ?_, ?_⟩ <;>
                simp [linkedlist_add, hinit, succMallocs, freeCount,
                  isDeallocEvent, isCopyEvent]
            | true => exact absurd (by simp [linkedlist_add, hinit]) hfail
      · have hinit2 : linkedlist_initialized (some l) = false :=
          Bool.eq_false_iff.mpr hinit
        cases value <;>
          exact ⟨by simp [linkedlist_add, hinit2],
            by simp [linkedlist_add, hinit2, succMallocs, freeCount],
            by simp [linkedlist_add, hinit2]⟩
  · intro hfail
    cases list with
    | none => exact ⟨rfl, by simp [linkedlist_update]⟩
    | some l =>
      by_cases hinit : linkedlist_initialized (some l) = true
      · cases value with
        | none => exact ⟨by simp [linkedlist_update, hinit],
            by simp [linkedlist_update, hinit]⟩
        | some v =>
          cases hx : l._head[i]? with
          | none =>
            refine ⟨?_, ?_⟩ <;>
              simp [update_eq _ _ _ hinit, hx, isDeallocEvent, isCopyEvent]
          | some old =>
            exact absurd (by simp [update_eq _ _ _ hinit, hx]) hfail
      · have hinit2 : linkedlist_initialized (some l) = false :=
          Bool.eq_false_iff.mpr hinit
        cases value <;>
          exact ⟨by simp [linkedlist_update, hinit2],
            by simp [linkedlist_update, hinit2]⟩
  · intro hfail
    cases list with
    | none => exact ⟨rfl, by simp [linkedlist_remove]⟩
    | some l =>
      by_cases hinit : linkedlist_initialized (some l) = true
      · cases hx : l._head[i]? with
        | none =>
          refine ⟨?_, ?_⟩ <;>
            simp [remove_eq _ _ hinit, hx, isDeallocEvent, isFreeEvent]
        | some rem =>
          exact absurd (by simp [remove_eq _ _ hinit, hx]) hfail
      · have hinit2 : linkedlist_initialized (some l) = false :=
          Bool.eq_false_iff.mpr hinit
        exact ⟨by simp [linkedlist_remove, hinit2],
          by simp [linkedlist_remove, hinit2]⟩

/-- C7: a NULL list handle, a destroyed list (NULL copy hook), a NULL
value for add/update and a NULL output buffer for get/length each make the
operation return EINVAL with an empty event trace, i.e. before any lock
acquisition. -/
theorem c7_invalid_args (l : LinkedList) (v b : Bytes) (i : Nat)
    (nOk vOk : Bool) :
    linkedlist_add none (some v) nOk vOk = (.EINVAL, none, []) ∧
    linkedlist_remove none i = (.EINVAL, none, []) ∧
    linkedlist_get none i (some b) = (.EINVAL, some b, []) ∧
    linkedlist_update none i (some v) = (.EINVAL, none, []) ∧
    linkedlist_length none true = (.EINVAL, none, []) ∧
    (l._copy = none →
      linkedlist_add (some l) (some v) nOk vOk = (.EINVAL, some l, []) ∧
      linkedlist_remove (some l) i = (.EINVAL, some l, []) ∧
      linkedlist_get (some l) i (some b) = (.EINVAL, some b, []) ∧
      linkedlist_update (some l) i (some v) = (.EINVAL, some l, []) ∧
      linkedlist_length (some l) true = (.EINVAL, none, [])) ∧
    (linkedlist_initialized (some l) = true →
      linkedlist_add (some l) none nOk vOk = (.EINVAL, some l, []) ∧
      linkedlist_update (some l) i none = (.EINVAL, some l, []) ∧
      linkedlist_get (some l) i none = (.EINVAL, none, []) ∧
      linkedlist_length (some l) false = (.EINVAL, none, [])) := by
  refine ⟨rfl, rfl, rfl, rfl, rfl, ?_, ?_⟩
  · intro hc
    have hinit2 : linkedlist_initialized (some l) = false := by
      simp [linkedlist_initialized, hc]
    exact ⟨by simp [linkedlist_add, hinit2],
      by simp [linkedlist_remove, hinit2],
      by simp [linkedlist_get, hinit2],
      by simp [linkedlist_update, hinit2],
      by simp [linkedlist_length, hinit2]⟩
  · intro hinit
    exact ⟨by simp [linkedlist_add, hinit],
      by simp [linkedlist_update, hinit],
      by simp [linkedlist_get, hinit],
      by simp [linkedlist_length, hinit]⟩

/-- C8: destroying an initialized list clears the head and both hooks,
keeps the element size, makes every later public operation fail with
EINVAL, and a second destroy produces the same final state as the first. -/
theorem c8_destroy_idempotent (l : LinkedList)
    (_hinit : linkedlist_initialized (some l) = true) :
    ∃ d, (linkedlist_destroy (some l)).1 = some d ∧
      d._head = [] ∧ d._copy = none ∧ d._dealloc = false ∧
      d._item_size = l._item_size ∧
      (∀ (v b : Bytes) (i : Nat) (nOk vOk : Bool),
        (linkedlist_add (some d) (some v) nOk vOk).1 = .EINVAL ∧
        (linkedlist_remove (some d) i).1 = .EINVAL ∧
        (linkedlist_get (some d) i (some b)).1 = .EINVAL ∧
        (linkedlist_update (some d) i (some v)).1 = .EINVAL ∧
        (linkedlist_length (some d) true).1 = .EINVAL) ∧
      linkedlist_destroy (some d) = (some d, [Event.mutexDestroy]) := by
  refine ⟨{ l with _head := [], _copy := none, _dealloc := false },
    rfl, rfl, rfl, rfl, rfl, ?_, rfl⟩
  have hinit2 : linkedlist_initialized (some { l with _head := ([] : List Bytes), _copy := none, _dealloc := false }) = false := by
    simp [linkedlist_initialized]
  intro v b i nOk vOk
  exact ⟨by simp [linkedlist_add, hinit2],
    by simp [linkedlist_remove, hinit2],
    by simp [linkedlist_get, hinit2],
    by simp [linkedlist_update, hinit2],
    by simp [linkedlist_length, hinit2]⟩

/-- Witness for C8 at a concrete input: a two-element one-byte list with a
dealloc hook installed. -/
theorem c8_destroy_idempotent_witness :
    linkedlist_initialized (some ⟨[[1], [2]], 1, some memcpy, true⟩) = true ∧
    ∃ d, (linkedlist_destroy (some ⟨[[1], [2]], 1, some memcpy, true⟩)).1 =
        some d ∧
      d._head = [] ∧ d._copy = none ∧ d._dealloc = false ∧
      d._item_size = 1 ∧
      (∀ (v b : Bytes) (i : Nat) (nOk vOk : Bool),
        (linkedlist_add (some d) (some v) nOk vOk).1 = .EINVAL ∧
        (linkedlist_remove (some d) i).1 = .EINVAL ∧
        (linkedlist_get (some d) i (some b)).1 = .EINVAL ∧
        (linkedlist_update (some d) i (some v)).1 = .EINVAL ∧
        (linkedlist_length (some d) true).1 = .EINVAL) ∧
      linkedlist_destroy (some d) = (some d, [Event.mutexDestroy]) :=
  ⟨rfl, c8_destroy_idempotent ⟨[[1], [2]], 1, some memcpy, true⟩ rfl⟩

/-- The buffer effect of a copy hook is unchanged by discarding its
returned pointer. -/
theorem applyCopy_discardRet (f : CopyFn) (dest src : Bytes) (n : Nat) :
    applyCopy (some (discardRet f)) dest src n = applyCopy (some f) dest src n :=
  rfl

/-- C9: the failure indication (returned pointer) of the copy hook is
ignored everywhere it is invoked: a hook that reports failure by returning
NULL produces exactly the same statuses, chains, buffers and traces as the
same hook reporting success, and add/get/update still return success under
their usual preconditions. -/
theorem c9_copy_failure_ignored (l : LinkedList) (f : CopyFn) (v b : Bytes)
    (i : Nat) (nOk vOk : Bool) :
    ((linkedlist_add (some { l with _copy := some (discardRet f) })
        (some v) nOk vOk).1 =
      (linkedlist_add (some { l with _copy := some f }) (some v) nOk vOk).1 ∧
     Option.map (fun x => x._head)
        ((linkedlist_add (some { l with _copy := some (discardRet f) })
          (some v) nOk vOk).2.1) =
      Option.map (fun x => x._head)
        ((linkedlist_add (some { l with _copy := some f })
          (some v) nOk vOk).2.1) ∧
     (linkedlist_add (some { l with _copy := some (discardRet f) })
        (some v) nOk vOk).2.2 =
      (linkedlist_add (some { l with _copy := some f }) (some v) nOk vOk).2.2) ∧
    linkedlist_get (some { l with _copy := some (discardRet f) }) i (some b) =
      linkedlist_get (some { l with _copy := some f }) i (some b) ∧
    ((linkedlist_update (some { l with _copy := some (discardRet f) })
        i (some v)).1 =
      (linkedlist_update (some { l with _copy := some f }) i (some v)).1 ∧
     Option.map (fun x => x._head)
        ((linkedlist_update (some { l with _copy := some (discardRet f) })
          i (some v)).2.1) =
      Option.map (fun x => x._head)
        ((linkedlist_update (some { l with _copy := some f }) i (some v)).2.1) ∧
     (linkedlist_update (some { l with _copy := some (discardRet f) })
        i (some v)).2.2 =
      (linkedlist_update (some { l with _copy := some f }) i (some v)).2.2) ∧
    (l._item_size ≠ 0 →
      (linkedlist_add (some { l with _copy := some (discardRet f) })
        (some v) true true).1 = .SUCCESS) ∧
    (l._item_size ≠ 0 → i < l._head.length →
      (linkedlist_get (some { l with _copy := some (discardRet f) })
        i (some b)).1 = .SUCCESS ∧
      (linkedlist_update (some { l with _copy := some (discardRet f) })
        i (some v)).1 = .SUCCESS) := by
  by_cases hsz : l._item_size = 0
  · have h1 : linkedlist_initialized (some { l with _copy := some (discardRet f) }) = false := by
      simp [linkedlist_initialized, hsz]
    have h2 : linkedlist_initialized (some { l with _copy := some f }) = false := by
      simp [linkedlist_initialized, hsz]
    refine ⟨⟨?_, ?_, ?_⟩, ?_, ⟨?_, ?_, ?_⟩, ?_, ?_⟩ <;>
      simp [linkedlist_add, linkedlist_get, linkedlist_update,
        linkedlist_initialized, hsz]
  · have h1 : linkedlist_initialized (some { l with _copy := some (discardRet f) }) = true := by
      simp [linkedlist_initialized, hsz]
    have h2 : linkedlist_initialized (some { l with _copy := some f }) = true := by
      simp [linkedlist_initialized, hsz]
    refine ⟨⟨?_, ?_, ?_⟩, ?_, ⟨?_, ?_, ?_⟩, ?_, ?_⟩
    · cases nOk <;> cases vOk <;> simp [linkedlist_add, h1, h2]
    · cases nOk <;> cases vOk <;>
        simp [linkedlist_add, h1, h2, applyCopy_discardRet]
    · cases nOk <;> cases vOk <;> simp [linkedlist_add, h1, h2]
    · cases hx : l._head[i]? <;>
        simp [get_eq _ _ _ h1, get_eq _ _ _ h2, hx, applyCopy_discardRet]
    · cases hx : l._head[i]? <;>
        simp [update_eq _ _ _ h1, update_eq _ _ _ h2, hx]
    · cases hx : l._head[i]? <;>
        simp [update_eq _ _ _ h1, update_eq _ _ _ h2, hx, applyCopy_discardRet]
    · cases hx : l._head[i]? <;>
        simp [update_eq _ _ _ h1, update_eq _ _ _ h2, hx]
    · intro hsz2
      simp [linkedlist_add, h1]
    · intro hsz2 hlt
      have hx : l._head[i]? = some l._head[i] := List.getElem?_eq_getElem hlt
      exact ⟨by simp [get_eq _ _ _ h1, hx], by simp [update_eq _ _ _ h1, hx]⟩

/-- C10: every public operation except destroy touches at most the head
chain: the element size, the copy hook and the dealloc hook survive any
add/remove/update/get/length call and any sequence of such calls, so an
initialized list stays initialized. -/
theorem c10_ops_preserve_initialized (l : LinkedList) (value : Option Bytes)
    (nOk vOk : Bool) (i : Nat) (b : Option Bytes) (ops : List Op) :
    (∃ h1, (linkedlist_add (some l) value nOk vOk).2.1 =
      some { l with _head := h1 }) ∧
    (∃ h2, (linkedlist_remove (some l) i).2.1 = some { l with _head := h2 }) ∧
    (∃ h3, (linkedlist_update (some l) i value).2.1 =
      some { l with _head := h3 }) ∧
    (runOp (some l) (Op.get i b)).2 = some l ∧
    (∃ l2 a r, runOps (some l) ops = (some l2, a, r) ∧
      l2._item_size = l._item_size ∧ l2._copy = l._copy ∧
      l2._dealloc = l._dealloc ∧
      linkedlist_initialized (some l2) = linkedlist_initialized (some l)) := by
  refine ⟨?_, ?_, ?_, rfl, ?_⟩
  · rcases add_cases l value nOk vOk with ⟨_, x, hst⟩ | ⟨_, hst⟩
    · exact ⟨l._head ++ [x], hst⟩
    · exact ⟨l._head, hst⟩
  · rcases remove_cases l i with ⟨_, h2c, hst, _⟩ | ⟨_, hst⟩
    · exact ⟨h2c, hst⟩
    · exact ⟨l._head, hst⟩
  · obtain ⟨h3c, hst, _⟩ := update_cases l i value
    exact ⟨h3c, hst⟩
  · obtain ⟨l2, a, r, hrun, _, h1, h2, h3⟩ := runOps_fields ops l
    refine ⟨l2, a, r, hrun, h1, h2, h3, ?_⟩
    simp only [linkedlist_initialized]
    rw [h1, h2]

end CLinkedList
